import Mathlib

/-!
# Verification of the dotr tree-mirroring link/unlink engine

Shallow embedding of `src/lib.rs` of the `dotr` dotfile manager.

Modelling conventions:

* A `Path` is the list of its components from the filesystem root; the
  canonical absolute paths handled by the engine become plain component
  lists, and `Path::join`/`strip_prefix` become list append/removal.
* The filesystem is its lstat view: a map `Path → Option FsObj` giving, for
  every path, the object sitting at it without following a final symlink
  (`file`, `dir`, `symlink target`, or `other` — the same four-way
  classification `std::fs::FileType` offers the code).
* Each engine operation returns the filesystem afterwards, the trace of
  observable events (the three mutating calls `remove_file`,
  `create_dir_all`, `symlink`, plus warn/debug log lines), and the
  `io::Error` if it aborted.
* The traversal (`WalkDir` filtered by `should_traverse`) is modelled as
  the list of source-relative paths it yields, in visitation order, with
  `.git` subtrees and unreadable entries already omitted; the engine is
  verified for an arbitrary such list.
* `read_link` can fail environmentally (EACCES and friends) even on an
  existing symlink; this is modelled by an explicit failure oracle `bad`.
  All statements about ordinary operation instantiate it to `noBad`.
-/

namespace DotrSpec

/-- A filesystem path, as the list of its components from the root. -/
abbrev Path := List String

/-- A filesystem object as classified by `symlink_metadata` (lstat):
regular file, directory, symlink carrying its target path, or any other
file type (socket, fifo, device). -/
inductive FsObj where
  | file : FsObj
  | dir : FsObj
  | symlink (target : Path) : FsObj
  | other : FsObj
deriving DecidableEq, Repr

/-- The filesystem state: what lstat reports at every path. -/
abbrev Fs := Path → Option FsObj

/-- Point update of a filesystem state. -/
def Fs.set (fs : Fs) (p : Path) (o : Option FsObj) : Fs :=
  fun q => if q = p then o else fs q

/-- The `io::Error` kinds the engine can produce. -/
inductive Err where
  | notFound : Err
  | alreadyExists : Err
  | isADirectory : Err
  | readFailed : Err
  | invalidInput : Err
deriving DecidableEq, Repr

/-- Observable per-entry effects: the three mutating filesystem calls, and
the warn/debug log lines (trace/info lines are not modelled). -/
inductive Event where
  | removeFile (p : Path) : Event
  | createDirAll (p : Path) : Event
  | createSymlink (target p : Path) : Event
  | warn (msg : String) : Event
  | debug (msg : String) : Event
deriving DecidableEq, Repr

/-- Whether an event is a filesystem mutation (as opposed to a log line). -/
def Event.isMutation : Event → Bool
  | .removeFile _ => true
  | .createDirAll _ => true
  | .createSymlink _ _ => true
  | .warn _ => false
  | .debug _ => false

/-- The environmental `read_link` failure oracle for ordinary operation:
no read ever fails for environmental reasons. -/
def noBad : Path → Bool := fun _ => false

/-- `std::fs::remove_file` (unlink(2)): removes the object at `p` without
following a final symlink; fails when nothing is there and fails with
EISDIR when `p` is a directory. -/
def removeFile (fs : Fs) (p : Path) : Except Err Fs :=
  match fs p with
  | none => .error .notFound
  | some .dir => .error .isADirectory
  | some _ => .ok (Fs.set fs p none)

/-- `Path::exists`: follows a final symlink, so a dangling symlink reports
false. (Deeper symlink chains are resolved one level here; every use in
the code pairs this with an lstat check that subsumes it, so the depth of
resolution is never observable.) -/
def existsFollow (fs : Fs) (p : Path) : Bool :=
  match fs p with
  | none => false
  | some (.symlink t) => (fs t).isSome
  | some _ => true

/-- `Path::is_dir`: follows a final symlink (one level, see `existsFollow`). -/
def isDirFollow (fs : Fs) (p : Path) : Bool :=
  match fs p with
  | some .dir => true
  | some (.symlink t) =>
    match fs t with
    | some .dir => true
    | _ => false
  | _ => false

/-- `Path::read_link` (readlink(2)): succeeds exactly on symlinks, except
that the `bad` oracle can make the read of an existing symlink fail for
environmental reasons. -/
def readLink (bad : Path → Bool) (fs : Fs) (p : Path) : Except Err Path :=
  if bad p then .error .readFailed
  else
    match fs p with
    | some (.symlink t) => .ok t
    | some _ => .error .invalidInput
    | none => .error .notFound

/-- The chain of nonempty extensions of `pre` by successive components of
`rest`: the paths `create_dir_all` inspects. -/
def extChain (pre : Path) : List String → List Path
  | [] => []
  | c :: cs => (pre ++ [c]) :: extChain (pre ++ [c]) cs

/-- Worker for `createDirAll`: walks the component chain, creating missing
directories, accepting existing directories (or symlinks resolving to
one), and failing on any other existing object. -/
def createDirAllGo (fs : Fs) (pre : Path) : List String → Except Err Fs
  | [] => .ok fs
  | c :: cs =>
    let q := pre ++ [c]
    match fs q with
    | none => createDirAllGo (Fs.set fs q (some .dir)) q cs
    | some .dir => createDirAllGo fs q cs
    | some (.symlink t) =>
      match fs t with
      | some .dir => createDirAllGo fs q cs
      | _ => .error .alreadyExists
    | some _ => .error .alreadyExists

/-- `std::fs::create_dir_all`: creates every missing directory along `p`. -/
def createDirAll (fs : Fs) (p : Path) : Except Err Fs :=
  createDirAllGo fs [] p

/-- `std::os::unix::fs::symlink(target, p)`: creates a symlink at `p`;
fails with EEXIST when any object (even a dangling symlink) already sits
at `p`. (symlink(2) also requires the parent directory to exist; that is
not modelled, because every call site has either just run
`create_dir_all` on the parent chain or seen an object at `p` itself.) -/
def symlinkCreate (fs : Fs) (target p : Path) : Except Err Fs :=
  match fs p with
  | some _ => .error .alreadyExists
  | none => .ok (Fs.set fs p (some (.symlink target)))

/-- `Path::canonicalize`: fails when the path does not resolve. The model
assumes the given root is already in canonical form, so on success the
path is returned unchanged. -/
def canonicalize (fs : Fs) (p : Path) : Except Err Path :=
  match fs p with
  | none => .error .notFound
  | some _ => .ok p

/-- The `Dotr` configuration struct (src/lib.rs, lines 10-15). The ignore
`HashSet` becomes a list queried by exact membership; insertion order is
irrelevant to every statement below. -/
structure Dotr where
  ignore : List Path
  dry_run : Bool
  force : Bool

/-- Result of one engine operation: the filesystem afterwards, the events
emitted in order, and the error if the operation aborted. -/
structure RunResult where
  fs : Fs
  events : List Event
  err : Option Err

/-- `Dotr::link_entry` (src/lib.rs, lines 40-131): handle one walked
source entry during `link`. The walk yields the absolute entry path
`src_base ++ rel`; `strip_prefix` recovers `rel`. -/
def Dotr.link_entry (d : Dotr) (bad : Path → Bool) (fs : Fs)
    (src_base dst_base rel : Path) : RunResult :=
  let src := src_base ++ rel
  if rel ∈ d.ignore then
    ⟨fs, [], none⟩
  else
    let dst := dst_base ++ rel
    let dst_type := fs dst
    match fs src with
    | none => ⟨fs, [], some .notFound⟩
    | some srcObj =>
      match srcObj with
      | .dir => ⟨fs, [], none⟩
      | .file =>
        if existsFollow fs dst || (fs dst).isSome then
          if d.force then
            if !d.dry_run then
              match removeFile fs dst with
              | .error e => ⟨fs, [.debug "Force removing destination"], some e⟩
              | .ok fs1 =>
                match symlinkCreate fs1 src dst with
                | .error e =>
                  ⟨fs1, [.debug "Force removing destination", .removeFile dst], some e⟩
                | .ok fs2 =>
                  ⟨fs2, [.debug "Force removing destination", .removeFile dst,
                         .createSymlink src dst], none⟩
            else
              ⟨fs, [.debug "Force removing destination (dry-run)"], none⟩
          else
            match dst_type with
            | some (.symlink _) =>
              match readLink bad fs dst with
              | .error e => ⟨fs, [], some e⟩
              | .ok dst_link_dst =>
                if dst_link_dst = src then
                  ⟨fs, [.debug "Destination already points to the source"], none⟩
                else
                  ⟨fs, [.warn "Destination already exists and points elsewhere"], none⟩
            | _ => ⟨fs, [.warn "Destination already exists and is not a symlink"], none⟩
        else
          if !d.dry_run then
            match createDirAll fs dst.dropLast with
            | .error e => ⟨fs, [.createDirAll dst.dropLast], some e⟩
            | .ok fs1 =>
              match symlinkCreate fs1 src dst with
              | .error e => ⟨fs1, [.createDirAll dst.dropLast], some e⟩
              | .ok fs2 =>
                ⟨fs2, [.createDirAll dst.dropLast, .createSymlink src dst], none⟩
          else ⟨fs, [], none⟩
      | .symlink _ =>
        match readLink bad fs src with
        | .error e => ⟨fs, [], some e⟩
        | .ok src_link =>
          if existsFollow fs dst || (fs dst).isSome then
            if d.force then
              if !d.dry_run then
                match removeFile fs dst with
                | .error e => ⟨fs, [.debug "Force removing destination"], some e⟩
                | .ok fs1 =>
                  match symlinkCreate fs1 src_link dst with
                  | .error e =>
                    ⟨fs1, [.debug "Force removing destination", .removeFile dst], some e⟩
                  | .ok fs2 =>
                    ⟨fs2, [.debug "Force removing destination", .removeFile dst,
                           .createSymlink src_link dst], none⟩
              else
                ⟨fs, [.debug "Force removing destination (dry-run)"], none⟩
            else
              if (readLink bad fs dst).toOption = some src_link then
                ⟨fs, [.debug "Destination already points to the source (symlink source)"],
                 none⟩
              else
                ⟨fs, [.warn "Destination already exists"], none⟩
          else
            if !d.dry_run then
              match createDirAll fs dst.dropLast with
              | .error e => ⟨fs, [.createDirAll dst.dropLast], some e⟩
              | .ok fs1 =>
                match symlinkCreate fs1 src_link dst with
                | .error e => ⟨fs1, [.createDirAll dst.dropLast], some e⟩
                | .ok fs2 =>
                  ⟨fs2, [.createDirAll dst.dropLast, .createSymlink src_link dst], none⟩
            else ⟨fs, [], none⟩
      | .other => ⟨fs, [.warn "Skipping unknown source file type"], none⟩

/-- `Dotr::unlink_entry` (src/lib.rs, lines 187-288): handle one walked
source entry during `unlink`. -/
def Dotr.unlink_entry (d : Dotr) (bad : Path → Bool) (fs : Fs)
    (src_base dst_base rel : Path) : RunResult :=
  let src := src_base ++ rel
  if rel ∈ d.ignore then
    ⟨fs, [], none⟩
  else
    let dst := dst_base ++ rel
    match fs src with
    | none => ⟨fs, [], some .notFound⟩
    | some srcObj =>
      match srcObj with
      | .dir => ⟨fs, [], none⟩
      | .file =>
        if existsFollow fs dst || (fs dst).isSome then
          match fs dst with
          | none => ⟨fs, [], some .notFound⟩
          | some dstObj =>
            if d.force then
              if !d.dry_run then
                match removeFile fs dst with
                | .error e => ⟨fs, [.debug "Force removing"], some e⟩
                | .ok fs1 => ⟨fs1, [.debug "Force removing", .removeFile dst], none⟩
              else
                ⟨fs, [.debug "Force removing (dry run)"], none⟩
            else
              match dstObj with
              | .file => ⟨fs, [.warn "Destination already exists and is a file"], none⟩
              | .dir => ⟨fs, [.warn "Destination already exists and is a directory"], none⟩
              | .symlink _ =>
                match readLink bad fs dst with
                | .error e => ⟨fs, [], some e⟩
                | .ok dst_link =>
                  if dst_link ≠ src then
                    ⟨fs,
                     [.warn "Destination already exists and is a symlink pointing to something else"],
                     none⟩
                  else
                    if !d.dry_run then
                      match removeFile fs dst with
                      | .error e => ⟨fs, [], some e⟩
                      | .ok fs1 => ⟨fs1, [.removeFile dst], none⟩
                    else ⟨fs, [], none⟩
              | .other => ⟨fs, [.warn "Destination exists and is of unknown file type"], none⟩
        else ⟨fs, [], none⟩
      | .symlink _ =>
        match readLink bad fs src with
        | .error e => ⟨fs, [], some e⟩
        | .ok src_link =>
          if existsFollow fs dst || (fs dst).isSome then
            match fs dst with
            | none => ⟨fs, [], some .notFound⟩
            | some dstObj =>
              if d.force then
                if !d.dry_run then
                  match removeFile fs dst with
                  | .error e => ⟨fs, [], some e⟩
                  | .ok fs1 => ⟨fs1, [.removeFile dst], none⟩
                else ⟨fs, [], none⟩
              else
                match dstObj with
                | .file => ⟨fs, [.warn "Destination already exists and is a file"], none⟩
                | .dir => ⟨fs, [.warn "Destination already exists and is a directory"], none⟩
                | .symlink _ =>
                  match readLink bad fs dst with
                  | .error e => ⟨fs, [], some e⟩
                  | .ok dst_link =>
                    if dst_link ≠ src_link then
                      ⟨fs,
                       [.warn "Destination already exists and is a symlink pointing to something else"],
                       none⟩
                    else
                      if !d.dry_run then
                        match removeFile fs dst with
                        | .error e => ⟨fs, [], some e⟩
                        | .ok fs1 => ⟨fs1, [.removeFile dst], none⟩
                      else ⟨fs, [], none⟩
                | .other =>
                  ⟨fs, [.warn "Destination exists and is of unknown file type"], none⟩
          else ⟨fs, [], none⟩
      | .other => ⟨fs, [.warn "Skipping unknown source file type"], none⟩

/-- Folds an entry handler over the walk's entries, aborting at the first
error (the `?` in the for-loop bodies of `link`/`unlink`). -/
def runEntries (step : Fs → Path → RunResult) (fs : Fs) : List Path → RunResult
  | [] => ⟨fs, [], none⟩
  | r :: rs =>
    let res := step fs r
    match res.err with
    | some e => ⟨res.fs, res.events, some e⟩
    | none =>
      let rest := runEntries step res.fs rs
      ⟨rest.fs, res.events ++ rest.events, rest.err⟩

/-- `Dotr::link` (src/lib.rs, lines 133-165): destination precondition
checks, canonicalization of both roots, then the walk. -/
def Dotr.link (d : Dotr) (bad : Path → Bool) (fs : Fs)
    (src_base dst_base : Path) (entries : List Path) : RunResult :=
  if !existsFollow fs dst_base then ⟨fs, [], some .notFound⟩
  else if !isDirFollow fs dst_base then ⟨fs, [], some .alreadyExists⟩
  else
    match canonicalize fs dst_base with
    | .error e => ⟨fs, [], some e⟩
    | .ok dstc =>
      match canonicalize fs src_base with
      | .error e => ⟨fs, [], some e⟩
      | .ok srcc =>
        runEntries (fun f r => d.link_entry bad f srcc dstc r) fs entries

/-- `Dotr::unlink` (src/lib.rs, lines 167-185): canonicalization of both
roots (the only pre-traversal checks), then the walk. -/
def Dotr.unlink (d : Dotr) (bad : Path → Bool) (fs : Fs)
    (src_base dst_base : Path) (entries : List Path) : RunResult :=
  match canonicalize fs dst_base with
  | .error e => ⟨fs, [], some e⟩
  | .ok dstc =>
    match canonicalize fs src_base with
    | .error e => ⟨fs, [], some e⟩
    | .ok srcc =>
      runEntries (fun f r => d.unlink_entry bad f srcc dstc r) fs entries

/-- A source path holding a leaf entry (regular file or symlink): the
entries `link` mirrors and `unlink` reclaims. -/
def leafB (fs : Fs) (p : Path) : Bool :=
  match fs p with
  | some .file => true
  | some (.symlink _) => true
  | _ => false

/-! ## Concrete fixtures for witnesses and counterexamples -/

/-- A small source tree `s/{a, l → s/a}` with an empty destination `d`. -/
def fsA : Fs := fun p =>
  if p = ["s"] then some .dir
  else if p = ["s", "a"] then some .file
  else if p = ["s", "l"] then some (.symlink ["s", "a"])
  else if p = ["d"] then some .dir
  else none

/-- The walk of `fsA`'s source tree: root, file `a`, symlink `l`. -/
def entriesA : List Path := [[], ["a"], ["l"]]

/-- Like `fsA` but with a pre-existing directory at the destination leaf
path `d/a`. -/
def fsDirConflict : Fs := fun p =>
  if p = ["s"] then some .dir
  else if p = ["s", "a"] then some .file
  else if p = ["d"] then some .dir
  else if p = ["d", "a"] then some .dir
  else none

/-- Like `fsA` but with a pre-existing file at `d/a` and a dangling
symlink at `d/l`. -/
def fsMixedConflict : Fs := fun p =>
  if p = ["s"] then some .dir
  else if p = ["s", "a"] then some .file
  else if p = ["s", "l"] then some (.symlink ["s", "a"])
  else if p = ["d"] then some .dir
  else if p = ["d", "a"] then some .file
  else if p = ["d", "l"] then some (.symlink ["x"])
  else none

/-- A destination tree already fully linked from `fsA`'s source tree. -/
def fsLinked : Fs := fun p =>
  if p = ["s"] then some .dir
  else if p = ["s", "a"] then some .file
  else if p = ["s", "l"] then some (.symlink ["s", "a"])
  else if p = ["d"] then some .dir
  else if p = ["d", "a"] then some (.symlink ["s", "a"])
  else if p = ["d", "l"] then some (.symlink ["s", "a"])
  else none

/-- An oracle making exactly the read of `d/a`'s link target fail. -/
def badDstA : Path → Bool := fun p => p = ["d", "a"]

end DotrSpec

namespace DotrSpec

/-! ## General lemmas -/

theorem Fs.set_set (fs : Fs) (p : Path) (a b : Option FsObj) :
    Fs.set (Fs.set fs p a) p b = Fs.set fs p b := by
  funext q
  by_cases h : q = p <;> simp [Fs.set, h]

theorem Fs.set_ne (fs : Fs) (p q : Path) (a : Option FsObj) (h : q ≠ p) :
    Fs.set fs p a q = fs q := by
  simp [Fs.set, h]

/-! ## Claim C8: exact-match ignore exclusion -/

/-- C8. A relative path in the ignore set is a complete no-op for both
`link_entry` and `unlink_entry` (no destination entry is created,
inspected or removed, no event is emitted), regardless of `force` and
`dry_run`; and ignore membership is decided by exact equality of the
entry's source-relative path alone: for a path not in the set — in
particular a strict descendant of an ignored path — both handlers behave
exactly as they would with an empty ignore set. -/
theorem ignore_exact_exclusion (d : Dotr) (bad : Path → Bool) (fs : Fs)
    (sb db r : Path) :
    (r ∈ d.ignore →
      d.link_entry bad fs sb db r = ⟨fs, [], none⟩ ∧
      d.unlink_entry bad fs sb db r = ⟨fs, [], none⟩) ∧
    (r ∉ d.ignore →
      d.link_entry bad fs sb db r
        = (Dotr.mk [] d.dry_run d.force).link_entry bad fs sb db r ∧
      d.unlink_entry bad fs sb db r
        = (Dotr.mk [] d.dry_run d.force).unlink_entry bad fs sb db r) := by
  constructor
  · intro h
    constructor <;> simp [Dotr.link_entry, Dotr.unlink_entry, h]
  · intro h
    constructor <;>
      · simp only [Dotr.link_entry, Dotr.unlink_entry]
        rw [if_neg h]
        simp

/-- Witness for `ignore_exact_exclusion`: the ignored leaf `a` of `fsA`
is untouched by `link_entry` even under `force`, while the non-ignored
leaf `l` behaves as with no ignore set. -/
theorem ignore_exact_exclusion_witness :
    ((Dotr.mk [["a"]] false true).link_entry noBad fsA ["s"] ["d"] ["a"]
        = ⟨fsA, [], none⟩ ∧
      (Dotr.mk [["a"]] false true).unlink_entry noBad fsA ["s"] ["d"] ["a"]
        = ⟨fsA, [], none⟩) ∧
    ((Dotr.mk [["a"]] false true).link_entry noBad fsA ["s"] ["d"] ["l"]
        = (Dotr.mk [] false true).link_entry noBad fsA ["s"] ["d"] ["l"] ∧
      (Dotr.mk [["a"]] false true).unlink_entry noBad fsA ["s"] ["d"] ["l"]
        = (Dotr.mk [] false true).unlink_entry noBad fsA ["s"] ["d"] ["l"]) :=
  ⟨(ignore_exact_exclusion (Dotr.mk [["a"]] false true) noBad fsA ["s"] ["d"] ["a"]).1
      (by decide),
   (ignore_exact_exclusion (Dotr.mk [["a"]] false true) noBad fsA ["s"] ["d"] ["l"]).2
      (by decide)⟩

/-! ## Claim C9: ignored entries return before any metadata read -/

/-- C9. For an ignored relative path, both handlers succeed immediately:
the filesystem is untouched, no event is emitted, and no error is
possible — even when reading the source entry's metadata would fail
(here: the source path holds no object at all), which would otherwise be
a fatal per-entry error. -/
theorem ignored_entry_before_metadata (d : Dotr) (bad : Path → Bool) (fs : Fs)
    (sb db r : Path) (hig : r ∈ d.ignore) (_hmeta : fs (sb ++ r) = none) :
    d.link_entry bad fs sb db r = ⟨fs, [], none⟩ ∧
    d.unlink_entry bad fs sb db r = ⟨fs, [], none⟩ := by
  constructor <;> simp [Dotr.link_entry, Dotr.unlink_entry, hig]

/-- Witness for `ignored_entry_before_metadata`: an ignored entry whose
source path holds nothing (its metadata read would fail) still
succeeds and touches nothing. -/
theorem ignored_entry_before_metadata_witness :
    (Dotr.mk [["ghost"]] false false).link_entry noBad fsA ["s"] ["d"] ["ghost"]
      = ⟨fsA, [], none⟩ ∧
    (Dotr.mk [["ghost"]] false false).unlink_entry noBad fsA ["s"] ["d"] ["ghost"]
      = ⟨fsA, [], none⟩ :=
  ignored_entry_before_metadata (Dotr.mk [["ghost"]] false false) noBad fsA
    ["s"] ["d"] ["ghost"] (by decide) (by decide)

/-! ## Claim C6: the destination-exists test does not follow the final symlink -/

/-- C6. The existence test `dst.exists() || dst.symlink_metadata().is_ok()`
counts a dangling symlink at the destination as an existing object even
though `exists()` (which follows the final symlink) reports false: with a
regular-file source, `link_entry` then takes the conflict branch (warn,
destination untouched) without `force`, and the force-remove-and-relink
branch with `force` — never the create-new-link branch. -/
theorem dangling_dst_counts_as_existing (ig : List Path) (fs : Fs)
    (sb db r t : Path) (hig : r ∉ ig)
    (hsrc : fs (sb ++ r) = some .file)
    (hdst : fs (db ++ r) = some (.symlink t))
    (hdang : fs t = none) :
    existsFollow fs (db ++ r) = false ∧
    (Dotr.mk ig false false).link_entry noBad fs sb db r
      = ⟨fs, [.warn "Destination already exists and points elsewhere"], none⟩ ∧
    (Dotr.mk ig false true).link_entry noBad fs sb db r
      = ⟨Fs.set fs (db ++ r) (some (.symlink (sb ++ r))),
         [.debug "Force removing destination", .removeFile (db ++ r),
          .createSymlink (sb ++ r) (db ++ r)], none⟩ := by
  have hne : t ≠ sb ++ r := by
    intro e
    rw [e, hsrc] at hdang
    exact Option.noConfusion hdang
  refine ⟨by simp [existsFollow, hdst, hdang], ?_, ?_⟩
  · simp [Dotr.link_entry, hig, hsrc, hdst, existsFollow, hdang, readLink, noBad, hne]
  · simp [Dotr.link_entry, hig, hsrc, hdst, existsFollow, hdang, removeFile,
      symlinkCreate, Fs.set, Fs.set_set]

/-- Witness for `dangling_dst_counts_as_existing`: in `fsMixedConflict`,
the dangling symlink `d/l → x` blocks linking of the source symlink...
here instantiated at the regular-file shape: a tree with `d/a` a dangling
symlink. -/
theorem dangling_dst_counts_as_existing_witness :
    existsFollow
        (fun p =>
          if p = ["s"] then some FsObj.dir
          else if p = ["s", "a"] then some FsObj.file
          else if p = ["d"] then some FsObj.dir
          else if p = ["d", "a"] then some (FsObj.symlink ["x"])
          else none)
        (["d"] ++ ["a"]) = false ∧
    (Dotr.mk [] false false).link_entry noBad
        (fun p =>
          if p = ["s"] then some FsObj.dir
          else if p = ["s", "a"] then some FsObj.file
          else if p = ["d"] then some FsObj.dir
          else if p = ["d", "a"] then some (FsObj.symlink ["x"])
          else none)
        ["s"] ["d"] ["a"]
      = ⟨(fun p =>
          if p = ["s"] then some FsObj.dir
          else if p = ["s", "a"] then some FsObj.file
          else if p = ["d"] then some FsObj.dir
          else if p = ["d", "a"] then some (FsObj.symlink ["x"])
          else none),
         [.warn "Destination already exists and points elsewhere"], none⟩ ∧
    (Dotr.mk [] false true).link_entry noBad
        (fun p =>
          if p = ["s"] then some FsObj.dir
          else if p = ["s", "a"] then some FsObj.file
          else if p = ["d"] then some FsObj.dir
          else if p = ["d", "a"] then some (FsObj.symlink ["x"])
          else none)
        ["s"] ["d"] ["a"]
      = ⟨Fs.set
          (fun p =>
            if p = ["s"] then some FsObj.dir
            else if p = ["s", "a"] then some FsObj.file
            else if p = ["d"] then some FsObj.dir
            else if p = ["d", "a"] then some (FsObj.symlink ["x"])
            else none)
          (["d"] ++ ["a"]) (some (.symlink (["s"] ++ ["a"]))),
         [.debug "Force removing destination", .removeFile (["d"] ++ ["a"]),
          .createSymlink (["s"] ++ ["a"]) (["d"] ++ ["a"])], none⟩ :=
  dangling_dst_counts_as_existing [] _ ["s"] ["d"] ["a"] ["x"]
    (by decide) (by decide) (by decide) (by decide)

/-! ## Claim C10: asymmetric handling of destination read_link failure -/

/-- C10. In `link` without `force`, when the destination holds a symlink
whose target cannot be read (environmental failure, oracle `bad`), the
two source types diverge: a regular-file source propagates the
`read_link` error (`?`, aborting the run), while a symlink source
swallows it (`.ok()`), emits the generic conflict warning, leaves the
destination untouched and returns success. -/
theorem readlink_failure_asymmetry (d : Dotr) (bad : Path → Bool) (fs : Fs)
    (sb db r t sl : Path)
    (hforce : d.force = false) (hig : r ∉ d.ignore)
    (hdst : fs (db ++ r) = some (.symlink t))
    (hbad : bad (db ++ r) = true) :
    (fs (sb ++ r) = some .file →
      d.link_entry bad fs sb db r = ⟨fs, [], some .readFailed⟩) ∧
    (fs (sb ++ r) = some (.symlink sl) → bad (sb ++ r) = false →
      d.link_entry bad fs sb db r
        = ⟨fs, [.warn "Destination already exists"], none⟩) := by
  constructor
  · intro hsrc
    simp [Dotr.link_entry, hig, hsrc, hdst, hforce, existsFollow, readLink, hbad]
  · intro hsrc hsb
    simp [Dotr.link_entry, hig, hsrc, hdst, hforce, existsFollow, readLink, hbad, hsb,
      Except.toOption]

/-- Witness for `readlink_failure_asymmetry`: over `fsLinked` with the
oracle `badDstA` failing exactly the read of `d/a`, the file entry `a`
aborts while a symlink entry at the same destination path warns and
succeeds. -/
theorem readlink_failure_asymmetry_witness :
    (fsLinked (["s"] ++ ["a"]) = some FsObj.file →
      (Dotr.mk [] false false).link_entry badDstA fsLinked ["s"] ["d"] ["a"]
        = ⟨fsLinked, [], some .readFailed⟩) ∧
    (fsLinked (["s"] ++ ["a"]) = some (FsObj.symlink ["s", "a"]) →
      badDstA (["s"] ++ ["a"]) = false →
      (Dotr.mk [] false false).link_entry badDstA fsLinked ["s"] ["d"] ["a"]
        = ⟨fsLinked, [.warn "Destination already exists"], none⟩) :=
  readlink_failure_asymmetry (Dotr.mk [] false false) badDstA fsLinked
    ["s"] ["d"] ["a"] ["s", "a"] ["s", "a"]
    (by decide) (by decide) (by decide) (by decide)

/-! ## Claim C1: force overwrite -/

/-- C1 counterexample. With `force` set (and `dry_run` off) and a
directory standing at the destination leaf path, `link_entry` does not
remove it and does not create the link: `fs::remove_file` fails with
EISDIR on a directory, so the entry aborts with an error and the
directory survives. This refutes the claim that `link` under `force`
removes a pre-existing destination entry of any kind, directories
included. -/
theorem force_dir_not_removed_counterexample :
    ((Dotr.mk [] false true).link_entry noBad fsDirConflict ["s"] ["d"] ["a"]).err
      = some Err.isADirectory ∧
    ((Dotr.mk [] false true).link_entry noBad fsDirConflict ["s"] ["d"] ["a"]).fs
      (["d"] ++ ["a"]) = some FsObj.dir ∧
    ((Dotr.mk [] false true).link_entry noBad fsDirConflict ["s"] ["d"] ["a"]).events
      = [Event.debug "Force removing destination"] := by
  decide

/-- C1 amended. For a non-ignored regular-file or symlink source entry
with `force` set and `dry_run` off, if some object sits at the
destination path and that object is NOT a directory (a file, a symlink —
matching or not — or an entry of other type), `link_entry` removes it and
creates the correct link there; a directory at the destination instead
makes `remove_file` fail with EISDIR and aborts the run with the
directory left in place — for both source types (third conjunct:
regular-file source, fourth conjunct: symlink source). -/
theorem force_replaces_nondir (d : Dotr) (bad : Path → Bool) (fs : Fs)
    (sb db r sl : Path) (o : FsObj)
    (hig : r ∉ d.ignore) (hforce : d.force = true) (hdry : d.dry_run = false)
    (hdst : fs (db ++ r) = some o) :
    (o ≠ .dir → fs (sb ++ r) = some .file →
      d.link_entry bad fs sb db r
        = ⟨Fs.set fs (db ++ r) (some (.symlink (sb ++ r))),
           [.debug "Force removing destination", .removeFile (db ++ r),
            .createSymlink (sb ++ r) (db ++ r)], none⟩) ∧
    (o ≠ .dir → fs (sb ++ r) = some (.symlink sl) → bad (sb ++ r) = false →
      d.link_entry bad fs sb db r
        = ⟨Fs.set fs (db ++ r) (some (.symlink sl)),
           [.debug "Force removing destination", .removeFile (db ++ r),
            .createSymlink sl (db ++ r)], none⟩) ∧
    (o = .dir → fs (sb ++ r) = some .file →
      d.link_entry bad fs sb db r
        = ⟨fs, [.debug "Force removing destination"], some .isADirectory⟩) ∧
    (o = .dir → fs (sb ++ r) = some (.symlink sl) → bad (sb ++ r) = false →
      d.link_entry bad fs sb db r
        = ⟨fs, [.debug "Force removing destination"], some .isADirectory⟩) := by
  refine ⟨?_, ?_, ?_, ?_⟩
  · intro ho hsrc
    cases o with
    | dir => exact absurd rfl ho
    | file =>
      simp [Dotr.link_entry, hig, hforce, hdry, hsrc, hdst, removeFile,
        symlinkCreate, Fs.set, Fs.set_set]
    | symlink t =>
      simp [Dotr.link_entry, hig, hforce, hdry, hsrc, hdst, removeFile,
        symlinkCreate, Fs.set, Fs.set_set]
    | other =>
      simp [Dotr.link_entry, hig, hforce, hdry, hsrc, hdst, removeFile,
        symlinkCreate, Fs.set, Fs.set_set]
  · intro ho hsrc hsb
    cases o with
    | dir => exact absurd rfl ho
    | file =>
      simp [Dotr.link_entry, hig, hforce, hdry, hsrc, hdst, removeFile,
        symlinkCreate, readLink, hsb, Fs.set, Fs.set_set]
    | symlink t =>
      simp [Dotr.link_entry, hig, hforce, hdry, hsrc, hdst, removeFile,
        symlinkCreate, readLink, hsb, Fs.set, Fs.set_set]
    | other =>
      simp [Dotr.link_entry, hig, hforce, hdry, hsrc, hdst, removeFile,
        symlinkCreate, readLink, hsb, Fs.set, Fs.set_set]
  · intro ho hsrc
    subst ho
    simp [Dotr.link_entry, hig, hforce, hdry, hsrc, hdst, removeFile]
  · intro ho hsrc hsb
    subst ho
    simp [Dotr.link_entry, hig, hforce, hdry, hsrc, hdst, removeFile, readLink, hsb]

/-- Witness for `force_replaces_nondir`: over `fsMixedConflict`, `force`
replaces the plain file at `d/a` by a symlink to `s/a`. -/
theorem force_replaces_nondir_witness :
    (Dotr.mk [] false true).link_entry noBad fsMixedConflict ["s"] ["d"] ["a"]
      = ⟨Fs.set fsMixedConflict (["d"] ++ ["a"]) (some (.symlink (["s"] ++ ["a"]))),
         [.debug "Force removing destination", .removeFile (["d"] ++ ["a"]),
          .createSymlink (["s"] ++ ["a"]) (["d"] ++ ["a"])], none⟩ :=
  (force_replaces_nondir (Dotr.mk [] false true) noBad fsMixedConflict
      ["s"] ["d"] ["a"] [] FsObj.file
      (by decide) (by decide) (by decide) (by decide)).1
    (by decide) (by decide)

/-! ## Claim C2: unlink without force only removes verified own links -/

/-- C2. Without `force`, `unlink_entry` removes a destination entry only
when it is a symlink whose target equals the verification target of the
source entry (the absolute source path for a regular-file source, the
source link's own target for a symlink source); in every other situation
the filesystem is left untouched and no mutation happens. Moreover each
of the four conflicting destination shapes — plain file, directory,
symlink pointing elsewhere, entry of unknown type — is left in place with
exactly one warning and a success result. (Ignored entries are no-ops by
`ignore_exact_exclusion`; here the entry is not ignored.) -/
theorem unlink_nonforce_safety (d : Dotr) (fs : Fs) (sb db r t sl : Path)
    (hforce : d.force = false) (hig : r ∉ d.ignore) :
    (((d.unlink_entry noBad fs sb db r).fs = fs ∧
        (d.unlink_entry noBad fs sb db r).events.filter Event.isMutation = []) ∨
      (d.dry_run = false ∧
        ((fs (sb ++ r) = some .file ∧ fs (db ++ r) = some (.symlink (sb ++ r))) ∨
          ∃ u, fs (sb ++ r) = some (.symlink u) ∧ fs (db ++ r) = some (.symlink u)) ∧
        (d.unlink_entry noBad fs sb db r).fs = Fs.set fs (db ++ r) none ∧
        (d.unlink_entry noBad fs sb db r).events.filter Event.isMutation
          = [.removeFile (db ++ r)])) ∧
    (fs (sb ++ r) = some .file → fs (db ++ r) = some .file →
      d.unlink_entry noBad fs sb db r
        = ⟨fs, [.warn "Destination already exists and is a file"], none⟩) ∧
    (fs (sb ++ r) = some .file → fs (db ++ r) = some .dir →
      d.unlink_entry noBad fs sb db r
        = ⟨fs, [.warn "Destination already exists and is a directory"], none⟩) ∧
    (fs (sb ++ r) = some .file → fs (db ++ r) = some (.symlink t) → t ≠ sb ++ r →
      d.unlink_entry noBad fs sb db r
        = ⟨fs, [.warn "Destination already exists and is a symlink pointing to something else"],
           none⟩) ∧
    (fs (sb ++ r) = some .file → fs (db ++ r) = some .other →
      d.unlink_entry noBad fs sb db r
        = ⟨fs, [.warn "Destination exists and is of unknown file type"], none⟩) ∧
    (fs (sb ++ r) = some (.symlink sl) → fs (db ++ r) = some .file →
      d.unlink_entry noBad fs sb db r
        = ⟨fs, [.warn "Destination already exists and is a file"], none⟩) ∧
    (fs (sb ++ r) = some (.symlink sl) → fs (db ++ r) = some .dir →
      d.unlink_entry noBad fs sb db r
        = ⟨fs, [.warn "Destination already exists and is a directory"], none⟩) ∧
    (fs (sb ++ r) = some (.symlink sl) → fs (db ++ r) = some (.symlink t) → t ≠ sl →
      d.unlink_entry noBad fs sb db r
        = ⟨fs, [.warn "Destination already exists and is a symlink pointing to something else"],
           none⟩) ∧
    (fs (sb ++ r) = some (.symlink sl) → fs (db ++ r) = some .other →
      d.unlink_entry noBad fs sb db r
        = ⟨fs, [.warn "Destination exists and is of unknown file type"], none⟩) := by
  refine ⟨?_, ?_, ?_, ?_, ?_, ?_, ?_, ?_, ?_⟩
  · -- blanket safety
    rcases hs : fs (sb ++ r) with _ | obj
    · left; simp [Dotr.unlink_entry, hig, hs]
    · cases obj with
      | dir => left; simp [Dotr.unlink_entry, hig, hs]
      | other => left; simp [Dotr.unlink_entry, hig, hs, Event.isMutation]
      | file =>
        rcases hd : fs (db ++ r) with _ | dobj
        · left; simp [Dotr.unlink_entry, hig, hs, hd, existsFollow]
        · cases dobj with
          | file =>
            left
            simp [Dotr.unlink_entry, hig, hs, hd, hforce, existsFollow, Event.isMutation]
          | dir =>
            left
            simp [Dotr.unlink_entry, hig, hs, hd, hforce, existsFollow, Event.isMutation]
          | other =>
            left
            simp [Dotr.unlink_entry, hig, hs, hd, hforce, existsFollow, Event.isMutation]
          | symlink u =>
            by_cases hu : u = sb ++ r
            · subst hu
              cases hdry : d.dry_run with
              | true =>
                left
                simp [Dotr.unlink_entry, hig, hs, hd, hforce, hdry, existsFollow,
                  readLink, noBad]
              | false =>
                right
                refine ⟨rfl, Or.inl ⟨rfl, rfl⟩, ?_, ?_⟩ <;>
                  simp [Dotr.unlink_entry, hig, hs, hd, hforce, hdry, existsFollow,
                    readLink, noBad, removeFile, Event.isMutation]
            · left
              simp [Dotr.unlink_entry, hig, hs, hd, hforce, hu, existsFollow,
                readLink, noBad, Event.isMutation]
      | symlink sl2 =>
        rcases hd : fs (db ++ r) with _ | dobj
        · left; simp [Dotr.unlink_entry, hig, hs, hd, existsFollow, readLink, noBad]
        · cases dobj with
          | file =>
            left
            simp [Dotr.unlink_entry, hig, hs, hd, hforce, existsFollow, readLink, noBad,
              Event.isMutation]
          | dir =>
            left
            simp [Dotr.unlink_entry, hig, hs, hd, hforce, existsFollow, readLink, noBad,
              Event.isMutation]
          | other =>
            left
            simp [Dotr.unlink_entry, hig, hs, hd, hforce, existsFollow, readLink, noBad,
              Event.isMutation]
          | symlink u =>
            by_cases hu : u = sl2
            · subst hu
              cases hdry : d.dry_run with
              | true =>
                left
                simp [Dotr.unlink_entry, hig, hs, hd, hforce, hdry, existsFollow,
                  readLink, noBad]
              | false =>
                right
                refine ⟨rfl, Or.inr ⟨u, rfl, rfl⟩, ?_, ?_⟩ <;>
                  simp [Dotr.unlink_entry, hig, hs, hd, hforce, hdry, existsFollow,
                    readLink, noBad, removeFile, Event.isMutation]
            · left
              simp [Dotr.unlink_entry, hig, hs, hd, hforce, hu, existsFollow,
                readLink, noBad, Event.isMutation]
  · intro hs hd
    simp [Dotr.unlink_entry, hig, hs, hd, hforce, existsFollow]
  · intro hs hd
    simp [Dotr.unlink_entry, hig, hs, hd, hforce, existsFollow]
  · intro hs hd hne
    simp [Dotr.unlink_entry, hig, hs, hd, hforce, hne, existsFollow, readLink, noBad]
  · intro hs hd
    simp [Dotr.unlink_entry, hig, hs, hd, hforce, existsFollow]
  · intro hs hd
    simp [Dotr.unlink_entry, hig, hs, hd, hforce, existsFollow, readLink, noBad]
  · intro hs hd
    simp [Dotr.unlink_entry, hig, hs, hd, hforce, existsFollow, readLink, noBad]
  · intro hs hd hne
    simp [Dotr.unlink_entry, hig, hs, hd, hforce, hne, existsFollow, readLink, noBad]
  · intro hs hd
    simp [Dotr.unlink_entry, hig, hs, hd, hforce, existsFollow, readLink, noBad]

/-- Witness for `unlink_nonforce_safety`: over `fsMixedConflict`, the
plain file at `d/a` is left in place with one warning. -/
theorem unlink_nonforce_safety_witness :
    (Dotr.mk [] false false).unlink_entry noBad fsMixedConflict ["s"] ["d"] ["a"]
      = ⟨fsMixedConflict, [.warn "Destination already exists and is a file"], none⟩ :=
  ((unlink_nonforce_safety (Dotr.mk [] false false) fsMixedConflict
      ["s"] ["d"] ["a"] [] [] (by decide) (by decide)).2.1)
    (by decide) (by decide)

/-! ## Claim C5: dry-run performs no filesystem mutation -/

/-- In dry-run mode `link_entry` leaves the filesystem untouched and
emits no mutation event, on every decision branch. -/
theorem link_entry_dry (d : Dotr) (bad : Path → Bool) (fs : Fs) (sb db r : Path)
    (h : d.dry_run = true) :
    (d.link_entry bad fs sb db r).fs = fs ∧
    (d.link_entry bad fs sb db r).events.filter Event.isMutation = [] := by
  refine ⟨?_, ?_⟩ <;>
    · simp only [Dotr.link_entry, h, Bool.not_true, Bool.false_eq_true, if_false]
      repeat' split
      any_goals rfl
      all_goals simp_all [Event.isMutation]

/-- In dry-run mode `unlink_entry` leaves the filesystem untouched and
emits no mutation event, on every decision branch. -/
theorem unlink_entry_dry (d : Dotr) (bad : Path → Bool) (fs : Fs) (sb db r : Path)
    (h : d.dry_run = true) :
    (d.unlink_entry bad fs sb db r).fs = fs ∧
    (d.unlink_entry bad fs sb db r).events.filter Event.isMutation = [] := by
  refine ⟨?_, ?_⟩ <;>
    · simp only [Dotr.unlink_entry, h, Bool.not_true, Bool.false_eq_true, if_false]
      repeat' split
      any_goals rfl
      all_goals simp_all [Event.isMutation]

/-- A fold of entry steps that each leave the filesystem untouched and
emit no mutation leaves the filesystem untouched and emits no mutation. -/
theorem runEntries_const_fs (step : Fs → Path → RunResult) (fs : Fs) (es : List Path)
    (h : ∀ f r, (step f r).fs = f ∧ (step f r).events.filter Event.isMutation = []) :
    (runEntries step fs es).fs = fs ∧
    (runEntries step fs es).events.filter Event.isMutation = [] := by
  induction es with
  | nil => simp [runEntries]
  | cons r rs ih =>
    have h1 := h fs r
    simp only [runEntries]
    rcases he : (step fs r).err with _ | e
    · simp only [he]
      constructor
      · rw [h1.1]; exact ih.1
      · rw [h1.1, List.filter_append, h1.2, ih.2]
        rfl
    · simp only [he]
      exact ⟨h1.1, h1.2⟩

/-- C5. With `dry_run` set, neither `link` nor `unlink` performs any
filesystem mutation on any decision branch: no remove-file,
create-directory or create-symlink event is ever emitted (including under
`force`), and the filesystem after the call is identical to the one
before — although every per-entry decision is still evaluated over the
unchanged filesystem. -/
theorem dry_run_no_mutation (d : Dotr) (bad : Path → Bool) (fs : Fs)
    (sb db : Path) (entries : List Path) (h : d.dry_run = true) :
    ((d.link bad fs sb db entries).fs = fs ∧
      (d.link bad fs sb db entries).events.filter Event.isMutation = []) ∧
    ((d.unlink bad fs sb db entries).fs = fs ∧
      (d.unlink bad fs sb db entries).events.filter Event.isMutation = []) := by
  constructor
  · simp only [Dotr.link]
    repeat' split
    all_goals
      first
      | exact runEntries_const_fs _ fs entries
          (fun f r => link_entry_dry d bad f _ _ r h)
      | simp
  · simp only [Dotr.unlink]
    repeat' split
    all_goals
      first
      | exact runEntries_const_fs _ fs entries
          (fun f r => unlink_entry_dry d bad f _ _ r h)
      | simp

/-- Witness for `dry_run_no_mutation`: a dry run of both operations over
`fsMixedConflict` (which has live conflicts, with `force` set) changes
nothing and emits no mutation. -/
theorem dry_run_no_mutation_witness :
    (((Dotr.mk [] true true).link noBad fsMixedConflict ["s"] ["d"] entriesA).fs
        = fsMixedConflict ∧
      ((Dotr.mk [] true true).link noBad fsMixedConflict ["s"] ["d"] entriesA).events.filter
        Event.isMutation = []) ∧
    (((Dotr.mk [] true true).unlink noBad fsMixedConflict ["s"] ["d"] entriesA).fs
        = fsMixedConflict ∧
      ((Dotr.mk [] true true).unlink noBad fsMixedConflict ["s"] ["d"] entriesA).events.filter
        Event.isMutation = []) :=
  dry_run_no_mutation (Dotr.mk [] true true) noBad fsMixedConflict ["s"] ["d"]
    entriesA rfl

/-! ## Claim C7: unlink has no destination-existence precondition -/

/-- A fold of entry steps that each (on this very filesystem) succeed
without touching it yields success without touching it. -/
theorem runEntries_noop (step : Fs → Path → RunResult) (fs : Fs) (es : List Path)
    (h : ∀ r ∈ es, (step fs r).fs = fs ∧ (step fs r).err = none ∧
      (step fs r).events.filter Event.isMutation = []) :
    (runEntries step fs es).fs = fs ∧ (runEntries step fs es).err = none ∧
    (runEntries step fs es).events.filter Event.isMutation = [] := by
  induction es with
  | nil => simp [runEntries]
  | cons r rs ih =>
    have h1 := h r (List.mem_cons_self r rs)
    have h2 := ih (fun x hx => h x (List.mem_cons_of_mem r hx))
    simp only [runEntries]
    rcases he : (step fs r).err with _ | e
    · simp only [he]
      rw [h1.1]
      exact ⟨h2.1, h2.2.1, by rw [List.filter_append, h1.2.2, h2.2.2]; rfl⟩
    · rw [h1.2.1] at he
      cases he

/-- When the source entry is readable and either is a directory or has no
object at its mirrored destination path, `unlink_entry` is a successful
no-op. -/
theorem unlink_entry_absent (d : Dotr) (fs : Fs) (sb db r : Path)
    (hsrc : (fs (sb ++ r)).isSome = true)
    (habs : fs (sb ++ r) = some FsObj.dir ∨ fs (db ++ r) = none) :
    (d.unlink_entry noBad fs sb db r).fs = fs ∧
    (d.unlink_entry noBad fs sb db r).err = none ∧
    (d.unlink_entry noBad fs sb db r).events.filter Event.isMutation = [] := by
  by_cases hig : r ∈ d.ignore
  · simp [Dotr.unlink_entry, hig]
  · rcases hs : fs (sb ++ r) with _ | obj
    · rw [hs] at hsrc
      simp at hsrc
    · cases obj with
      | dir => simp [Dotr.unlink_entry, hig, hs]
      | other => simp [Dotr.unlink_entry, hig, hs, Event.isMutation]
      | file =>
        rcases habs with hd | hd
        · rw [hs] at hd
          simp at hd
        · simp [Dotr.unlink_entry, hig, hs, hd, existsFollow]
      | symlink t =>
        rcases habs with hd | hd
        · rw [hs] at hd
          simp at hd
        · simp [Dotr.unlink_entry, hig, hs, hd, existsFollow, readLink, noBad]

/-- C7. Top-level `unlink` has no destination-existence precondition of
its own: when both roots canonicalize (first conjunct: both resolve) and
no object sits at any mirrored destination path, every entry is a
"nothing to unlink" no-op and `unlink` returns success with the
filesystem untouched; and the only pre-traversal failures are the two
canonicalization errors (second and third conjuncts: an unresolvable
destination or source root aborts before any entry is processed). -/
theorem unlink_no_dst_precondition (d : Dotr) (fs g : Fs) (sb db : Path)
    (entries : List Path)
    (hsb : (fs sb).isSome = true) (hdb : (fs db).isSome = true)
    (hread : ∀ r ∈ entries, (fs (sb ++ r)).isSome = true)
    (habs : ∀ r ∈ entries, fs (sb ++ r) = some FsObj.dir ∨ fs (db ++ r) = none) :
    ((d.unlink noBad fs sb db entries).err = none ∧
      (d.unlink noBad fs sb db entries).fs = fs ∧
      (d.unlink noBad fs sb db entries).events.filter Event.isMutation = []) ∧
    (g db = none → d.unlink noBad g sb db entries = ⟨g, [], some .notFound⟩) ∧
    ((g db).isSome = true → g sb = none →
      d.unlink noBad g sb db entries = ⟨g, [], some .notFound⟩) := by
  refine ⟨?_, ?_, ?_⟩
  · obtain ⟨o1, ho1⟩ := Option.isSome_iff_exists.mp hdb
    obtain ⟨o2, ho2⟩ := Option.isSome_iff_exists.mp hsb
    have h := runEntries_noop (fun f r => d.unlink_entry noBad f sb db r) fs entries
      (fun r hr => unlink_entry_absent d fs sb db r (hread r hr) (habs r hr))
    simp only [Dotr.unlink, canonicalize, ho1, ho2]
    exact ⟨h.2.1, h.1, h.2.2⟩
  · intro hg
    simp [Dotr.unlink, canonicalize, hg]
  · intro hg1 hg2
    obtain ⟨o, ho⟩ := Option.isSome_iff_exists.mp hg1
    simp [Dotr.unlink, canonicalize, ho, hg2]

/-- Witness for `unlink_no_dst_precondition`: over `fsA` (destination
`d` exists but holds no mirrored entries) `unlink` succeeds untouched;
over a filesystem holding only the source root, the destination root
fails to canonicalize. -/
theorem unlink_no_dst_precondition_witness :
    (((Dotr.mk [] false false).unlink noBad fsA ["s"] ["d"] entriesA).err = none ∧
      ((Dotr.mk [] false false).unlink noBad fsA ["s"] ["d"] entriesA).fs = fsA ∧
      ((Dotr.mk [] false false).unlink noBad fsA ["s"] ["d"] entriesA).events.filter
        Event.isMutation = []) ∧
    ((fun p => if p = ["s"] then some FsObj.dir else none) ["d"] = none →
      (Dotr.mk [] false false).unlink noBad
          (fun p => if p = ["s"] then some FsObj.dir else none) ["s"] ["d"] entriesA
        = ⟨(fun p => if p = ["s"] then some FsObj.dir else none), [], some .notFound⟩) ∧
    (((fun p => if p = ["s"] then some FsObj.dir else none) ["d"]).isSome = true →
      (fun p => if p = ["s"] then some FsObj.dir else none) ["s"] = none →
      (Dotr.mk [] false false).unlink noBad
          (fun p => if p = ["s"] then some FsObj.dir else none) ["s"] ["d"] entriesA
        = ⟨(fun p => if p = ["s"] then some FsObj.dir else none), [], some .notFound⟩) :=
  unlink_no_dst_precondition (Dotr.mk [] false false) fsA
    (fun p => if p = ["s"] then some FsObj.dir else none) ["s"] ["d"] entriesA
    (by decide) (by decide) (by decide) (by decide)

/-! ## Machinery for claims C3 and C4: the link fold and the unlink fold -/

/-- Membership in the extension chain is being a nonempty prefix. -/
theorem extChain_mem (pre : Path) (rest : List String) (x : Path) :
    x ∈ extChain pre rest ↔ ∃ s, s ≠ [] ∧ s <+: rest ∧ x = pre ++ s := by
  induction rest generalizing pre with
  | nil =>
    simp only [extChain, List.not_mem_nil, false_iff]
    rintro ⟨s, hs, hp, rfl⟩
    exact hs (List.prefix_nil.mp hp)
  | cons c cs ih =>
    simp only [extChain, List.mem_cons, ih (pre ++ [c])]
    constructor
    · rintro (rfl | ⟨s, hs, hp, rfl⟩)
      · exact ⟨[c], by simp, ⟨cs, rfl⟩, rfl⟩
      · refine ⟨c :: s, by simp, ?_, by simp⟩
        rw [List.cons_prefix_cons]
        exact ⟨rfl, hp⟩
    · rintro ⟨s, hs, hp, rfl⟩
      cases s with
      | nil => exact absurd rfl hs
      | cons a as =>
        rw [List.cons_prefix_cons] at hp
        rcases hp with ⟨rfl, hp2⟩
        cases as with
        | nil => left; simp
        | cons b bs =>
          right
          refine ⟨b :: bs, by simp, hp2, ?_⟩
          simp

/-- Every path in the extension chain is strictly longer than the base. -/
theorem extChain_length (pre : Path) (rest : List String) (x : Path)
    (h : x ∈ extChain pre rest) : pre.length < x.length := by
  rw [extChain_mem] at h
  rcases h with ⟨s, hs, _, rfl⟩
  have : 0 < s.length := List.length_pos.mpr hs
  simp [List.length_append]
  omega

/-- When every path along the chain is missing or a directory,
`create_dir_all` succeeds and fills exactly the missing ones with
directories. -/
theorem createDirAllGo_spec (rest : List String) (pre : Path) (fs : Fs)
    (h : ∀ q ∈ extChain pre rest, fs q = none ∨ fs q = some FsObj.dir) :
    ∃ fs', createDirAllGo fs pre rest = .ok fs' ∧
      ∀ x, fs' x = if x ∈ extChain pre rest ∧ fs x = none
        then some FsObj.dir else fs x := by
  induction rest generalizing pre fs with
  | nil =>
    refine ⟨fs, rfl, fun x => ?_⟩
    simp [extChain]
  | cons c cs ih =>
    have hnotown : (pre ++ [c]) ∉ extChain (pre ++ [c]) cs := fun hc =>
      absurd (extChain_length _ _ _ hc) (lt_irrefl _)
    rcases h (pre ++ [c]) (by simp [extChain]) with hq | hq
    · have h' : ∀ p ∈ extChain (pre ++ [c]) cs,
          Fs.set fs (pre ++ [c]) (some FsObj.dir) p = none ∨
          Fs.set fs (pre ++ [c]) (some FsObj.dir) p = some FsObj.dir := by
        intro p hp
        by_cases hpq : p = pre ++ [c]
        · right; simp [Fs.set, hpq]
        · rw [Fs.set_ne _ _ _ _ hpq]
          exact h p (by simp [extChain, hp])
      obtain ⟨fs', hrun, hchar⟩ := ih (pre ++ [c]) (Fs.set fs (pre ++ [c]) (some .dir)) h'
      refine ⟨fs', by simp [createDirAllGo, hq, hrun], fun x => ?_⟩
      have hx := hchar x
      by_cases hxq : x = pre ++ [c]
      · subst hxq
        rw [hx, if_neg (fun hc => hnotown hc.1), if_pos ⟨by simp [extChain], hq⟩]
        simp [Fs.set]
      · rw [hx, Fs.set_ne _ _ _ _ hxq]
        have hmem : x ∈ extChain pre (c :: cs) ↔ x ∈ extChain (pre ++ [c]) cs := by
          simp [extChain, hxq]
        by_cases hc : x ∈ extChain (pre ++ [c]) cs ∧ fs x = none
        · rw [if_pos hc, if_pos ⟨hmem.mpr hc.1, hc.2⟩]
        · rw [if_neg hc, if_neg (fun hcc => hc ⟨hmem.mp hcc.1, hcc.2⟩)]
    · obtain ⟨fs', hrun, hchar⟩ :=
        ih (pre ++ [c]) fs (fun p hp => h p (by simp [extChain, hp]))
      refine ⟨fs', by simp [createDirAllGo, hq, hrun], fun x => ?_⟩
      have hx := hchar x
      by_cases hxq : x = pre ++ [c]
      · subst hxq
        rw [hx, if_neg (fun hc => hnotown hc.1),
          if_neg (fun hc => by rw [hq] at hc; exact Option.noConfusion hc.2)]
      · rw [hx]
        have hmem : x ∈ extChain pre (c :: cs) ↔ x ∈ extChain (pre ++ [c]) cs := by
          simp [extChain, hxq]
        by_cases hc : x ∈ extChain (pre ++ [c]) cs ∧ fs x = none
        · rw [if_pos hc, if_pos ⟨hmem.mpr hc.1, hc.2⟩]
        · rw [if_neg hc, if_neg (fun hcc => hc ⟨hmem.mp hcc.1, hcc.2⟩)]

/-- `link_entry` on a fresh destination (no conflict, clean parent chain,
`force` and `dry_run` off): it succeeds, creates the parent directories
and plants the link — to the absolute source path for a file source, to
the source link's target for a symlink source. -/
theorem link_entry_new (d : Dotr) (fs : Fs) (sb db r tgt : Path)
    (hforce : d.force = false) (hdry : d.dry_run = false) (hig : r ∉ d.ignore)
    (hsrc : fs (sb ++ r) = some FsObj.file ∧ tgt = sb ++ r ∨
      fs (sb ++ r) = some (FsObj.symlink tgt))
    (hdst : fs (db ++ r) = none)
    (hpre : ∀ q, q <+: db ++ r → q ≠ db ++ r → q ≠ [] →
      fs q = none ∨ fs q = some FsObj.dir) :
    (d.link_entry noBad fs sb db r).err = none ∧
    ∀ x, (d.link_entry noBad fs sb db r).fs x =
      if x = db ++ r then some (FsObj.symlink tgt)
      else if x ∈ extChain [] (db ++ r).dropLast ∧ fs x = none
        then some FsObj.dir else fs x := by
  have hchain : ∀ q ∈ extChain [] (db ++ r).dropLast,
      fs q = none ∨ fs q = some FsObj.dir := by
    intro q hq
    rw [extChain_mem] at hq
    rcases hq with ⟨s, hs, hp, he⟩
    have he2 : q = s := by simpa using he
    subst he2
    have h1 : q <+: db ++ r := hp.trans (List.dropLast_prefix _)
    have h2 : q ≠ db ++ r := by
      intro e
      have hle := hp.length_le
      rw [List.length_dropLast] at hle
      have hpos : 0 < q.length := List.length_pos.mpr hs
      rw [← e] at hle
      omega
    exact hpre q h1 h2 hs
  obtain ⟨fs1, hrun, hchar⟩ := createDirAllGo_spec ((db ++ r).dropLast) [] fs hchain
  have hdstchain : (db ++ r) ∉ extChain [] (db ++ r).dropLast := by
    intro hc
    rw [extChain_mem] at hc
    rcases hc with ⟨s, hs, hp, he⟩
    have he2 : db ++ r = s := by simpa using he
    subst he2
    have hle := hp.length_le
    rw [List.length_dropLast] at hle
    have hpos : 0 < (db ++ r).length := List.length_pos.mpr hs
    omega
  have h1 : fs1 (db ++ r) = none := by
    rw [hchar, if_neg (fun hc => hdstchain hc.1)]
    exact hdst
  have hres : d.link_entry noBad fs sb db r =
      ⟨Fs.set fs1 (db ++ r) (some (.symlink tgt)),
       [.createDirAll (db ++ r).dropLast, .createSymlink tgt (db ++ r)], none⟩ := by
    rcases hsrc with ⟨hsf, rfl⟩ | hss
    · simp [Dotr.link_entry, hig, hsf, hdst, existsFollow, hdry, createDirAll,
        hrun, symlinkCreate, h1]
    · simp [Dotr.link_entry, hig, hss, hdst, existsFollow, hdry, createDirAll,
        hrun, symlinkCreate, h1, readLink, noBad]
  rw [hres]
  refine ⟨rfl, fun x => ?_⟩
  by_cases hx : x = db ++ r
  · subst hx
    simp [Fs.set]
  · rw [if_neg hx]
    show Fs.set fs1 (db ++ r) (some (.symlink tgt)) x = _
    rw [Fs.set_ne _ _ _ _ hx, hchar x]

/-- An ignored, directory or unknown-type source entry leaves `link_entry`
a successful no-op on the filesystem. -/
theorem link_entry_skip (d : Dotr) (bad : Path → Bool) (fs : Fs) (sb db r : Path)
    (h : r ∈ d.ignore ∨ fs (sb ++ r) = some FsObj.dir ∨
      fs (sb ++ r) = some FsObj.other) :
    (d.link_entry bad fs sb db r).err = none ∧
    (d.link_entry bad fs sb db r).fs = fs := by
  rcases h with h | h | h
  · simp [Dotr.link_entry, h]
  all_goals
    by_cases hig : r ∈ d.ignore
    · simp [Dotr.link_entry, hig]
    · simp [Dotr.link_entry, hig, h]

/-- Two non-nested roots generate disjoint subtrees. -/
theorem append_disjoint (sb db : Path) (hnp1 : ¬ sb <+: db) (hnp2 : ¬ db <+: sb)
    (a b : Path) : sb ++ a ≠ db ++ b := by
  intro h
  have h1 : sb <+: db ++ b := h ▸ List.prefix_append sb a
  have h2 : db <+: db ++ b := List.prefix_append db b
  rcases List.prefix_or_prefix_of_prefix h1 h2 with hc | hc
  · exact hnp1 hc
  · exact hnp2 hc

/-- A path below the destination root is never a path below the source
root, for non-nested roots. -/
theorem prefix_dst_ne_src (sb db : Path) (hnp1 : ¬ sb <+: db) (hnp2 : ¬ db <+: sb)
    (r a p : Path) (hp : p <+: db ++ r) : p ≠ sb ++ a := by
  rintro rfl
  have h1 : sb <+: db ++ r := (List.prefix_append sb a).trans hp
  have h2 : db <+: db ++ r := List.prefix_append db r
  rcases List.prefix_or_prefix_of_prefix h1 h2 with hc | hc
  · exact hnp1 hc
  · exact hnp2 hc

/-- Unfolding of the entry fold over a successful head entry. -/
theorem runEntries_cons_none (step : Fs → Path → RunResult) (fs : Fs) (r : Path)
    (rs : List Path) (h : (step fs r).err = none) :
    (runEntries step fs (r :: rs)).fs = (runEntries step (step fs r).fs rs).fs ∧
    (runEntries step fs (r :: rs)).err = (runEntries step (step fs r).fs rs).err := by
  simp only [runEntries, h]
  exact ⟨trivial, trivial⟩

/-- Main specification of the `link` walk without `force`/`dry_run` over
non-nested roots: given distinct entries whose leaves are unobstructed at
the destination (no object at the mirrored path, only directories or
nothing along its parent chain, and no leaf path a strict prefix of
another entry), the fold succeeds, preserves every existing object,
plants the correct link for every non-ignored leaf, and changes only
blank paths below the destination root (filling them with parent
directories or the planted links). -/
theorem link_fold_spec (d : Dotr) (sb db : Path)
    (hforce : d.force = false) (hdry : d.dry_run = false)
    (hnp1 : ¬ sb <+: db) (hnp2 : ¬ db <+: sb) :
    ∀ (es : List Path) (fs : Fs),
    es.Nodup →
    (∀ r ∈ es, (fs (sb ++ r)).isSome = true) →
    (∀ r ∈ es, r ∉ d.ignore → leafB fs (sb ++ r) = true → fs (db ++ r) = none) →
    (∀ r ∈ es, ∀ q, q <+: db ++ r → q ≠ db ++ r → q ≠ [] →
      fs q = none ∨ fs q = some FsObj.dir) →
    (∀ r1 ∈ es, ∀ r2 ∈ es, r1 ∉ d.ignore → leafB fs (sb ++ r1) = true →
      r1 <+: r2 → r1 = r2) →
    (runEntries (fun f x => d.link_entry noBad f sb db x) fs es).err = none ∧
    (∀ p o, fs p = some o →
      (runEntries (fun f x => d.link_entry noBad f sb db x) fs es).fs p = some o) ∧
    (∀ r ∈ es, r ∉ d.ignore →
      (fs (sb ++ r) = some FsObj.file →
        (runEntries (fun f x => d.link_entry noBad f sb db x) fs es).fs (db ++ r)
          = some (FsObj.symlink (sb ++ r))) ∧
      (∀ t, fs (sb ++ r) = some (FsObj.symlink t) →
        (runEntries (fun f x => d.link_entry noBad f sb db x) fs es).fs (db ++ r)
          = some (FsObj.symlink t))) ∧
    (∀ p, (runEntries (fun f x => d.link_entry noBad f sb db x) fs es).fs p ≠ fs p →
      fs p = none ∧ ∃ r, r ∈ es ∧ p <+: db ++ r ∧
        ((runEntries (fun f x => d.link_entry noBad f sb db x) fs es).fs p
          = some FsObj.dir ∨ p = db ++ r)) := by
  intro es
  induction es with
  | nil =>
    intro fs _ _ _ _ _
    refine ⟨rfl, ?_, ?_, ?_⟩
    · intro p o h
      exact h
    · intro r hr
      exact absurd hr (List.not_mem_nil r)
    · intro p hp
      exact absurd rfl hp
  | cons r rs ih =>
    intro fs hnodup hread hdst hpre hleaf
    obtain ⟨hrnotin, hnodup'⟩ := List.nodup_cons.mp hnodup
    have hclassify : (r ∈ d.ignore ∨ fs (sb ++ r) = some FsObj.dir ∨
        fs (sb ++ r) = some FsObj.other) ∨
        (r ∉ d.ignore ∧ ∃ tgt, (fs (sb ++ r) = some FsObj.file ∧ tgt = sb ++ r) ∨
          fs (sb ++ r) = some (FsObj.symlink tgt)) := by
      by_cases hig : r ∈ d.ignore
      · exact Or.inl (Or.inl hig)
      · obtain ⟨obj, hobj⟩ :=
          Option.isSome_iff_exists.mp (hread r (List.mem_cons_self r rs))
        cases obj with
        | dir => exact Or.inl (Or.inr (Or.inl hobj))
        | other => exact Or.inl (Or.inr (Or.inr hobj))
        | file => exact Or.inr ⟨hig, sb ++ r, Or.inl ⟨hobj, rfl⟩⟩
        | symlink t0 => exact Or.inr ⟨hig, t0, Or.inr hobj⟩
    rcases hclassify with hskip | ⟨hig, tgt, hsrc2⟩
    · -- the head entry is a no-op (ignored, directory, or unknown type)
      have hstep := link_entry_skip d noBad fs sb db r hskip
      have hcons := runEntries_cons_none
        (fun f x => d.link_entry noBad f sb db x) fs r rs hstep.1
      rw [hstep.2] at hcons
      have IH := ih fs hnodup' (fun x hx => hread x (List.mem_cons_of_mem r hx))
        (fun x hx => hdst x (List.mem_cons_of_mem r hx))
        (fun x hx => hpre x (List.mem_cons_of_mem r hx))
        (fun x hx y hy => hleaf x (List.mem_cons_of_mem r hx) y
          (List.mem_cons_of_mem r hy))
      refine ⟨?_, ?_, ?_, ?_⟩
      · rw [hcons.2]
        exact IH.1
      · intro p o h
        rw [hcons.1]
        exact IH.2.1 p o h
      · intro x hx hxig
        rcases List.mem_cons.mp hx with rfl | hx'
        · rcases hskip with h | h | h
          · exact absurd h hxig
          · constructor
            · intro hf
              rw [h] at hf
              simp at hf
            · intro t hf
              rw [h] at hf
              simp at hf
          · constructor
            · intro hf
              rw [h] at hf
              simp at hf
            · intro t hf
              rw [h] at hf
              simp at hf
        · have hlk := IH.2.2.1 x hx' hxig
          rw [hcons.1]
          exact hlk
      · intro p hp
        rw [hcons.1] at hp ⊢
        obtain ⟨h1, x, hx, h2, h3⟩ := IH.2.2.2 p hp
        exact ⟨h1, x, List.mem_cons_of_mem r hx, h2, h3⟩
    · -- the head entry creates a link
      have hleafB : leafB fs (sb ++ r) = true := by
        rcases hsrc2 with ⟨hf, _⟩ | hf <;> simp [leafB, hf]
      have hdstn : fs (db ++ r) = none :=
        hdst r (List.mem_cons_self r rs) hig hleafB
      obtain ⟨herr, hchar⟩ := link_entry_new d fs sb db r tgt hforce hdry hig hsrc2
        hdstn (hpre r (List.mem_cons_self r rs))
      set F1 := (d.link_entry noBad fs sb db r).fs with hF1
      have f1 : F1 (db ++ r) = some (FsObj.symlink tgt) := by
        rw [hchar]
        simp
      have f2 : ∀ p, F1 p = fs p ∨
          (fs p = none ∧ p <+: db ++ r ∧ (F1 p = some FsObj.dir ∨ p = db ++ r)) := by
        intro p
        have h := hchar p
        by_cases h1 : p = db ++ r
        · subst h1
          exact Or.inr ⟨hdstn, List.prefix_refl _, Or.inr rfl⟩
        · rw [if_neg h1] at h
          by_cases h2 : p ∈ extChain [] (db ++ r).dropLast ∧ fs p = none
          · rw [if_pos h2] at h
            refine Or.inr ⟨h2.2, ?_, Or.inl h⟩
            have hm := h2.1
            rw [extChain_mem] at hm
            rcases hm with ⟨s, hs, hsp, he⟩
            have he2 : p = s := by simpa using he
            subst he2
            exact hsp.trans (List.dropLast_prefix _)
          · rw [if_neg h2] at h
            exact Or.inl h
      have f3 : ∀ p o, fs p = some o → F1 p = some o := by
        intro p o h
        rcases f2 p with he | ⟨hn, _, _⟩
        · rw [he]
          exact h
        · rw [h] at hn
          simp at hn
      have f4 : ∀ a : Path, F1 (sb ++ a) = fs (sb ++ a) := by
        intro a
        rcases f2 (sb ++ a) with he | ⟨_, hpp, _⟩
        · exact he
        · exact absurd rfl (prefix_dst_ne_src sb db hnp1 hnp2 r a _ hpp).symm
      have hleafB4 : ∀ a : Path, leafB F1 (sb ++ a) = leafB fs (sb ++ a) := by
        intro a
        unfold leafB
        rw [f4]
      have f5 : ∀ x ∈ rs, x ∉ d.ignore → leafB fs (sb ++ x) = true →
          F1 (db ++ x) = none := by
        intro x hx hxig hxleaf
        have hxdst : fs (db ++ x) = none :=
          hdst x (List.mem_cons_of_mem r hx) hxig hxleaf
        rcases f2 (db ++ x) with he | ⟨hn, hpp, hcase⟩
        · rw [he]
          exact hxdst
        · exfalso
          rcases hcase with hdir | heq
          · by_cases hxe : db ++ x = db ++ r
            · have hxr : x = r := List.append_cancel_left hxe
              subst hxr
              exact hrnotin hx
            · have hxp : x <+: r := (List.prefix_append_right_inj db).mp hpp
              have hxr := hleaf x (List.mem_cons_of_mem r hx) r
                (List.mem_cons_self r rs) hxig hxleaf hxp
              subst hxr
              exact hrnotin hx
          · have hxr : x = r := List.append_cancel_left heq
            subst hxr
            exact hrnotin hx
      have f6 : ∀ x ∈ rs, ∀ q, q <+: db ++ x → q ≠ db ++ x → q ≠ [] →
          F1 q = none ∨ F1 q = some FsObj.dir := by
        intro x hx q hq hne hnil
        rcases f2 q with he | ⟨hn, hpp, hcase⟩
        · rw [he]
          exact hpre x (List.mem_cons_of_mem r hx) q hq hne hnil
        · rcases hcase with hdir | heq
          · exact Or.inr hdir
          · exfalso
            subst heq
            have hrx : r <+: x := (List.prefix_append_right_inj db).mp hq
            have hre := hleaf r (List.mem_cons_self r rs) x
              (List.mem_cons_of_mem r hx) hig hleafB hrx
            rw [← hre] at hne
            exact hne rfl
      have IH := ih F1 hnodup'
        (fun x hx => by rw [f4]; exact hread x (List.mem_cons_of_mem r hx))
        (fun x hx hxig hxleaf => f5 x hx hxig (by rw [← hleafB4]; exact hxleaf))
        f6
        (fun x hx y hy hxig hxleaf => hleaf x (List.mem_cons_of_mem r hx) y
          (List.mem_cons_of_mem r hy) hxig (by rw [← hleafB4]; exact hxleaf))
      have hcons := runEntries_cons_none
        (fun f x => d.link_entry noBad f sb db x) fs r rs herr
      refine ⟨?_, ?_, ?_, ?_⟩
      · rw [hcons.2]
        exact IH.1
      · intro p o h
        rw [hcons.1]
        exact IH.2.1 p o (f3 p o h)
      · intro x hx hxig
        rcases List.mem_cons.mp hx with rfl | hx'
        · constructor
          · intro hf
            rcases hsrc2 with ⟨hf2, he⟩ | hf2
            · subst he
              rw [hcons.1]
              exact IH.2.1 _ _ f1
            · rw [hf] at hf2
              simp at hf2
          · intro t hf
            rcases hsrc2 with ⟨hf2, he⟩ | hf2
            · rw [hf] at hf2
              simp at hf2
            · rw [hf] at hf2
              have ht : tgt = t := by
                have := Option.some.inj hf2.symm
                exact (FsObj.symlink.inj this)
              subst ht
              rw [hcons.1]
              exact IH.2.1 _ _ f1
        · have hlk := IH.2.2.1 x hx' hxig
          rw [hcons.1]
          constructor
          · intro hf
            exact hlk.1 (by rw [f4]; exact hf)
          · intro t hf
            exact hlk.2 t (by rw [f4]; exact hf)
      · intro p hp
        rw [hcons.1] at hp ⊢
        by_cases hch : (runEntries (fun f x => d.link_entry noBad f sb db x) F1 rs).fs p
            = F1 p
        · rw [hch] at hp ⊢
          rcases f2 p with he | ⟨hn, hpre2, hcase⟩
          · exact absurd he hp
          · exact ⟨hn, r, List.mem_cons_self r rs, hpre2, hcase⟩
        · obtain ⟨h1, x, hx, h2, h3⟩ := IH.2.2.2 p hch
          have hfsp : fs p = none := by
            rcases f2 p with he | ⟨hn, _, _⟩
            · rw [← he]
              exact h1
            · exact hn
          exact ⟨hfsp, x, List.mem_cons_of_mem r hx, h2, h3⟩

/-- An already-satisfied (or skippable) source entry leaves `link_entry` a
successful no-op with no mutation event. -/
theorem link_entry_satisfied (d : Dotr) (fs : Fs) (sb db r : Path)
    (hforce : d.force = false)
    (hsat : r ∈ d.ignore ∨ fs (sb ++ r) = some FsObj.dir ∨
      fs (sb ++ r) = some FsObj.other ∨
      (fs (sb ++ r) = some FsObj.file ∧ fs (db ++ r) = some (FsObj.symlink (sb ++ r))) ∨
      (∃ t, fs (sb ++ r) = some (FsObj.symlink t) ∧
        fs (db ++ r) = some (FsObj.symlink t))) :
    (d.link_entry noBad fs sb db r).fs = fs ∧
    (d.link_entry noBad fs sb db r).err = none ∧
    (d.link_entry noBad fs sb db r).events.filter Event.isMutation = [] := by
  rcases hsat with h | h | h | ⟨h1, h2⟩ | ⟨t, h1, h2⟩
  · simp [Dotr.link_entry, h]
  · by_cases hig : r ∈ d.ignore
    · simp [Dotr.link_entry, hig]
    · simp [Dotr.link_entry, hig, h]
  · by_cases hig : r ∈ d.ignore
    · simp [Dotr.link_entry, hig]
    · simp [Dotr.link_entry, hig, h, Event.isMutation]
  · by_cases hig : r ∈ d.ignore
    · simp [Dotr.link_entry, hig]
    · simp [Dotr.link_entry, hig, h1, h2, hforce, existsFollow, readLink, noBad,
        Event.isMutation]
  · by_cases hig : r ∈ d.ignore
    · simp [Dotr.link_entry, hig]
    · simp [Dotr.link_entry, hig, h1, h2, hforce, existsFollow, readLink, noBad,
        Except.toOption, Event.isMutation]

/-- An ignored, directory or unknown-type source entry leaves
`unlink_entry` a successful no-op on the filesystem. -/
theorem unlink_entry_skip (d : Dotr) (bad : Path → Bool) (fs : Fs) (sb db r : Path)
    (h : r ∈ d.ignore ∨ fs (sb ++ r) = some FsObj.dir ∨
      fs (sb ++ r) = some FsObj.other) :
    (d.unlink_entry bad fs sb db r).err = none ∧
    (d.unlink_entry bad fs sb db r).fs = fs := by
  rcases h with h | h | h
  · simp [Dotr.unlink_entry, h]
  all_goals
    by_cases hig : r ∈ d.ignore
    · simp [Dotr.unlink_entry, hig]
    · simp [Dotr.unlink_entry, hig, h]

/-- A non-ignored leaf whose destination holds the matching link is
removed by `unlink_entry` (without `force`/`dry_run`). -/
theorem unlink_entry_removes (d : Dotr) (fs : Fs) (sb db r : Path)
    (hforce : d.force = false) (hdry : d.dry_run = false) (hig : r ∉ d.ignore)
    (hsrc : fs (sb ++ r) = some FsObj.file ∧
        fs (db ++ r) = some (FsObj.symlink (sb ++ r)) ∨
      ∃ t, fs (sb ++ r) = some (FsObj.symlink t) ∧
        fs (db ++ r) = some (FsObj.symlink t)) :
    d.unlink_entry noBad fs sb db r
      = ⟨Fs.set fs (db ++ r) none, [.removeFile (db ++ r)], none⟩ := by
  rcases hsrc with ⟨h1, h2⟩ | ⟨t, h1, h2⟩
  · simp [Dotr.unlink_entry, hig, h1, h2, hforce, hdry, existsFollow, readLink,
      noBad, removeFile]
  · simp [Dotr.unlink_entry, hig, h1, h2, hforce, hdry, existsFollow, readLink,
      noBad, removeFile]

/-- Main specification of the `unlink` walk without `force`/`dry_run`
over non-nested roots: on a filesystem where every non-ignored leaf has
its matching link at the mirrored destination path, the fold succeeds,
removes exactly those links, and changes nothing else. -/
theorem unlink_fold_spec (d : Dotr) (sb db : Path)
    (hforce : d.force = false) (hdry : d.dry_run = false)
    (hnp1 : ¬ sb <+: db) (hnp2 : ¬ db <+: sb) :
    ∀ (es : List Path) (fs : Fs),
    es.Nodup →
    (∀ r ∈ es, (fs (sb ++ r)).isSome = true) →
    (∀ r ∈ es, r ∉ d.ignore →
      (fs (sb ++ r) = some FsObj.file →
        fs (db ++ r) = some (FsObj.symlink (sb ++ r))) ∧
      (∀ t, fs (sb ++ r) = some (FsObj.symlink t) →
        fs (db ++ r) = some (FsObj.symlink t))) →
    (runEntries (fun f x => d.unlink_entry noBad f sb db x) fs es).err = none ∧
    (∀ r ∈ es, r ∉ d.ignore → leafB fs (sb ++ r) = true →
      (runEntries (fun f x => d.unlink_entry noBad f sb db x) fs es).fs (db ++ r)
        = none) ∧
    (∀ p, (runEntries (fun f x => d.unlink_entry noBad f sb db x) fs es).fs p ≠ fs p →
      (runEntries (fun f x => d.unlink_entry noBad f sb db x) fs es).fs p = none ∧
      ∃ r, r ∈ es ∧ p = db ++ r) := by
  intro es
  induction es with
  | nil =>
    intro fs _ _ _
    refine ⟨rfl, ?_, ?_⟩
    · intro r hr
      exact absurd hr (List.not_mem_nil r)
    · intro p hp
      exact absurd rfl hp
  | cons r rs ih =>
    intro fs hnodup hread hmatch
    obtain ⟨hrnotin, hnodup'⟩ := List.nodup_cons.mp hnodup
    have hclassify : (r ∈ d.ignore ∨ fs (sb ++ r) = some FsObj.dir ∨
        fs (sb ++ r) = some FsObj.other) ∨
        (r ∉ d.ignore ∧ (fs (sb ++ r) = some FsObj.file ∧
          fs (db ++ r) = some (FsObj.symlink (sb ++ r)) ∨
          ∃ t, fs (sb ++ r) = some (FsObj.symlink t) ∧
            fs (db ++ r) = some (FsObj.symlink t))) := by
      by_cases hig : r ∈ d.ignore
      · exact Or.inl (Or.inl hig)
      · obtain ⟨obj, hobj⟩ :=
          Option.isSome_iff_exists.mp (hread r (List.mem_cons_self r rs))
        cases obj with
        | dir => exact Or.inl (Or.inr (Or.inl hobj))
        | other => exact Or.inl (Or.inr (Or.inr hobj))
        | file =>
          exact Or.inr ⟨hig, Or.inl ⟨hobj,
            (hmatch r (List.mem_cons_self r rs) hig).1 hobj⟩⟩
        | symlink t0 =>
          exact Or.inr ⟨hig, Or.inr ⟨t0, hobj,
            (hmatch r (List.mem_cons_self r rs) hig).2 t0 hobj⟩⟩
    rcases hclassify with hskip | ⟨hig, hsrc⟩
    · have hstep := unlink_entry_skip d noBad fs sb db r hskip
      have hcons := runEntries_cons_none
        (fun f x => d.unlink_entry noBad f sb db x) fs r rs hstep.1
      rw [hstep.2] at hcons
      have IH := ih fs hnodup' (fun x hx => hread x (List.mem_cons_of_mem r hx))
        (fun x hx => hmatch x (List.mem_cons_of_mem r hx))
      refine ⟨?_, ?_, ?_⟩
      · rw [hcons.2]
        exact IH.1
      · intro x hx hxig hxleaf
        rcases List.mem_cons.mp hx with rfl | hx'
        · exfalso
          rcases hskip with h | h | h
          · exact hxig h
          · rw [leafB, h] at hxleaf
            simp at hxleaf
          · rw [leafB, h] at hxleaf
            simp at hxleaf
        · rw [hcons.1]
          exact IH.2.1 x hx' hxig hxleaf
      · intro p hp
        rw [hcons.1] at hp ⊢
        obtain ⟨h1, x, hx, h2⟩ := IH.2.2 p hp
        exact ⟨h1, x, List.mem_cons_of_mem r hx, h2⟩
    · have hstep := unlink_entry_removes d fs sb db r hforce hdry hig hsrc
      have herr : ((fun f x => d.unlink_entry noBad f sb db x) fs r).err = none := by
        show (d.unlink_entry noBad fs sb db r).err = none
        rw [hstep]
      have hcons := runEntries_cons_none
        (fun f x => d.unlink_entry noBad f sb db x) fs r rs herr
      have hF1 : ((fun f x => d.unlink_entry noBad f sb db x) fs r).fs
          = Fs.set fs (db ++ r) none := by
        show (d.unlink_entry noBad fs sb db r).fs = Fs.set fs (db ++ r) none
        rw [hstep]
      rw [hF1] at hcons
      have hsetne : ∀ a : Path, Fs.set fs (db ++ r) none (sb ++ a) = fs (sb ++ a) :=
        fun a => Fs.set_ne _ _ _ _ (append_disjoint sb db hnp1 hnp2 a r)
      have hsetdb : ∀ x ∈ rs, Fs.set fs (db ++ r) none (db ++ x) = fs (db ++ x) := by
        intro x hx
        refine Fs.set_ne _ _ _ _ (fun he => ?_)
        have hxr : x = r := List.append_cancel_left he
        subst hxr
        exact hrnotin hx
      have IH := ih (Fs.set fs (db ++ r) none) hnodup'
        (fun x hx => by rw [hsetne]; exact hread x (List.mem_cons_of_mem r hx))
        (fun x hx hxig => by
          constructor
          · intro hf
            rw [hsetdb x hx]
            exact (hmatch x (List.mem_cons_of_mem r hx) hxig).1
              (by rw [← hsetne]; exact hf)
          · intro t hf
            rw [hsetdb x hx]
            exact (hmatch x (List.mem_cons_of_mem r hx) hxig).2 t
              (by rw [← hsetne]; exact hf))
      refine ⟨?_, ?_, ?_⟩
      · rw [hcons.2]
        exact IH.1
      · intro x hx hxig hxleaf
        rcases List.mem_cons.mp hx with rfl | hx'
        · rw [hcons.1]
          by_cases hch : (runEntries (fun f y => d.unlink_entry noBad f sb db y)
              (Fs.set fs (db ++ x) none) rs).fs (db ++ x)
              = Fs.set fs (db ++ x) none (db ++ x)
          · rw [hch]
            simp [Fs.set]
          · exact (IH.2.2 _ hch).1
        · rw [hcons.1]
          refine IH.2.1 x hx' hxig ?_
          rw [leafB, hsetne]
          exact hxleaf
      · intro p hp
        rw [hcons.1] at hp ⊢
        by_cases hpr : p = db ++ r
        · subst hpr
          by_cases hch : (runEntries (fun f y => d.unlink_entry noBad f sb db y)
              (Fs.set fs (db ++ r) none) rs).fs (db ++ r)
              = Fs.set fs (db ++ r) none (db ++ r)
          · rw [hch]
            refine ⟨by simp [Fs.set], r, List.mem_cons_self r rs, rfl⟩
          · exact ⟨(IH.2.2 _ hch).1, r, List.mem_cons_self r rs, rfl⟩
        · have hsp : Fs.set fs (db ++ r) none p = fs p := Fs.set_ne _ _ _ _ hpr
          by_cases hch : (runEntries (fun f y => d.unlink_entry noBad f sb db y)
              (Fs.set fs (db ++ r) none) rs).fs p = Fs.set fs (db ++ r) none p
          · rw [hch, hsp] at hp
            exact absurd rfl hp
          · obtain ⟨h1, x, hx, h2⟩ := IH.2.2 p hch
            exact ⟨h1, x, List.mem_cons_of_mem r hx, h2⟩

/-! ## Claim C3: link is idempotent -/

/-- C3. Over non-nested canonical roots, for any source tree (arbitrary
distinct walk entries with readable sources) whose mirrored destination
paths are initially unobstructed, running `link` (in its default
non-force, non-dry-run configuration, the one whose already-satisfied
check the claim describes) succeeds, and running it a second time over
the destination produced by the first run again succeeds while
recognizing every non-ignored entry as already satisfied: the second run
performs no filesystem mutation and returns a destination tree identical
to the one after the single first run. -/
theorem link_idempotent (d : Dotr) (fs : Fs) (sb db : Path) (es : List Path)
    (hforce : d.force = false) (hdry : d.dry_run = false)
    (hnp1 : ¬ sb <+: db) (hnp2 : ¬ db <+: sb)
    (hdb : fs db = some FsObj.dir) (hsb : (fs sb).isSome = true)
    (hnodup : es.Nodup)
    (hread : ∀ r ∈ es, (fs (sb ++ r)).isSome = true)
    (hdst : ∀ r ∈ es, r ∉ d.ignore → leafB fs (sb ++ r) = true → fs (db ++ r) = none)
    (hpre : ∀ r ∈ es, ∀ q ∈ (db ++ r).inits, q ≠ db ++ r → q ≠ [] →
      fs q = none ∨ fs q = some FsObj.dir)
    (hleaf : ∀ r1 ∈ es, ∀ r2 ∈ es, r1 ∉ d.ignore → leafB fs (sb ++ r1) = true →
      r1 <+: r2 → r1 = r2) :
    (d.link noBad fs sb db es).err = none ∧
    (d.link noBad (d.link noBad fs sb db es).fs sb db es).err = none ∧
    (d.link noBad (d.link noBad fs sb db es).fs sb db es).fs
      = (d.link noBad fs sb db es).fs ∧
    (d.link noBad (d.link noBad fs sb db es).fs sb db es).events.filter
      Event.isMutation = [] := by
  have hpre' : ∀ r ∈ es, ∀ q, q <+: db ++ r → q ≠ db ++ r → q ≠ [] →
      fs q = none ∨ fs q = some FsObj.dir := by
    intro r hr q hq
    exact hpre r hr q ((List.mem_inits q (db ++ r)).mpr hq)
  have hM := link_fold_spec d sb db hforce hdry hnp1 hnp2 es fs hnodup hread
    hdst hpre' hleaf
  obtain ⟨o2, ho2⟩ := Option.isSome_iff_exists.mp hsb
  have hlink1 : d.link noBad fs sb db es
      = runEntries (fun f x => d.link_entry noBad f sb db x) fs es := by
    simp [Dotr.link, existsFollow, isDirFollow, canonicalize, hdb, ho2]
  rw [hlink1]
  set F := (runEntries (fun f x => d.link_entry noBad f sb db x) fs es).fs with hFdef
  have hFdb : F db = some FsObj.dir := hM.2.1 db _ hdb
  have hFsb : F sb = some o2 := hM.2.1 sb _ ho2
  have hlink2 : d.link noBad F sb db es
      = runEntries (fun f x => d.link_entry noBad f sb db x) F es := by
    simp [Dotr.link, existsFollow, isDirFollow, canonicalize, hFdb, hFsb]
  rw [hlink2]
  have hsat : ∀ x ∈ es,
      (d.link_entry noBad F sb db x).fs = F ∧
      (d.link_entry noBad F sb db x).err = none ∧
      (d.link_entry noBad F sb db x).events.filter Event.isMutation = [] := by
    intro x hx
    apply link_entry_satisfied d F sb db x hforce
    by_cases hxig : x ∈ d.ignore
    · exact Or.inl hxig
    · obtain ⟨obj, hobj⟩ := Option.isSome_iff_exists.mp (hread x hx)
      have hFs : F (sb ++ x) = some obj := hM.2.1 _ _ hobj
      cases obj with
      | dir => exact Or.inr (Or.inl hFs)
      | other => exact Or.inr (Or.inr (Or.inl hFs))
      | file =>
        exact Or.inr (Or.inr (Or.inr (Or.inl ⟨hFs, (hM.2.2.1 x hx hxig).1 hobj⟩)))
      | symlink t =>
        exact Or.inr (Or.inr (Or.inr (Or.inr ⟨t, hFs, (hM.2.2.1 x hx hxig).2 t hobj⟩)))
  have hnoop := runEntries_noop (fun f y => d.link_entry noBad f sb db y) F es hsat
  exact ⟨hM.1, hnoop.2.1, hnoop.1, hnoop.2.2⟩

/-- Witness for `link_idempotent`: linking `fsA`'s source tree twice —
the second run succeeds, changes nothing and mutates nothing. -/
theorem link_idempotent_witness :
    ((Dotr.mk [] false false).link noBad fsA ["s"] ["d"] entriesA).err = none ∧
    ((Dotr.mk [] false false).link noBad
      ((Dotr.mk [] false false).link noBad fsA ["s"] ["d"] entriesA).fs
      ["s"] ["d"] entriesA).err = none ∧
    ((Dotr.mk [] false false).link noBad
      ((Dotr.mk [] false false).link noBad fsA ["s"] ["d"] entriesA).fs
      ["s"] ["d"] entriesA).fs
      = ((Dotr.mk [] false false).link noBad fsA ["s"] ["d"] entriesA).fs ∧
    ((Dotr.mk [] false false).link noBad
      ((Dotr.mk [] false false).link noBad fsA ["s"] ["d"] entriesA).fs
      ["s"] ["d"] entriesA).events.filter Event.isMutation = [] :=
  link_idempotent (Dotr.mk [] false false) fsA ["s"] ["d"] entriesA
    (by decide) (by decide) (by decide) (by decide) (by decide) (by decide)
    (by decide) (by decide) (by decide) (by decide) (by decide)

/-! ## Claim C4: link then unlink round trip -/

/-- C4. Over non-nested canonical roots, for any source tree with no
pre-existing conflicting entries at the destination, `link` followed by
`unlink` (both without `force` and without `dry_run`) succeeds and
removes every link the `link` run created: afterwards no object remains
at the mirrored destination path of any non-ignored leaf entry. -/
theorem link_unlink_round_trip (d : Dotr) (fs : Fs) (sb db : Path) (es : List Path)
    (hforce : d.force = false) (hdry : d.dry_run = false)
    (hnp1 : ¬ sb <+: db) (hnp2 : ¬ db <+: sb)
    (hdb : fs db = some FsObj.dir) (hsb : (fs sb).isSome = true)
    (hnodup : es.Nodup)
    (hread : ∀ r ∈ es, (fs (sb ++ r)).isSome = true)
    (hdst : ∀ r ∈ es, r ∉ d.ignore → leafB fs (sb ++ r) = true → fs (db ++ r) = none)
    (hpre : ∀ r ∈ es, ∀ q ∈ (db ++ r).inits, q ≠ db ++ r → q ≠ [] →
      fs q = none ∨ fs q = some FsObj.dir)
    (hleaf : ∀ r1 ∈ es, ∀ r2 ∈ es, r1 ∉ d.ignore → leafB fs (sb ++ r1) = true →
      r1 <+: r2 → r1 = r2) :
    (d.link noBad fs sb db es).err = none ∧
    (d.unlink noBad (d.link noBad fs sb db es).fs sb db es).err = none ∧
    es.all (fun x => decide (x ∈ d.ignore) || !(leafB fs (sb ++ x)) ||
      ((d.unlink noBad (d.link noBad fs sb db es).fs sb db es).fs
        (db ++ x)).isNone) = true := by
  have hpre' : ∀ r ∈ es, ∀ q, q <+: db ++ r → q ≠ db ++ r → q ≠ [] →
      fs q = none ∨ fs q = some FsObj.dir := by
    intro r hr q hq
    exact hpre r hr q ((List.mem_inits q (db ++ r)).mpr hq)
  have hM := link_fold_spec d sb db hforce hdry hnp1 hnp2 es fs hnodup hread
    hdst hpre' hleaf
  obtain ⟨o2, ho2⟩ := Option.isSome_iff_exists.mp hsb
  have hlink1 : d.link noBad fs sb db es
      = runEntries (fun f x => d.link_entry noBad f sb db x) fs es := by
    simp [Dotr.link, existsFollow, isDirFollow, canonicalize, hdb, ho2]
  rw [hlink1]
  set F := (runEntries (fun f x => d.link_entry noBad f sb db x) fs es).fs with hFdef
  have hFdb : F db = some FsObj.dir := hM.2.1 db _ hdb
  have hFsb : F sb = some o2 := hM.2.1 sb _ ho2
  have hunlink : d.unlink noBad F sb db es
      = runEntries (fun f x => d.unlink_entry noBad f sb db x) F es := by
    simp [Dotr.unlink, canonicalize, hFdb, hFsb]
  rw [hunlink]
  have hFsrc : ∀ a : Path, F (sb ++ a) = fs (sb ++ a) := by
    intro a
    by_cases h : F (sb ++ a) = fs (sb ++ a)
    · exact h
    · obtain ⟨_, x, _, hp, _⟩ := hM.2.2.2 _ h
      exact absurd rfl (prefix_dst_ne_src sb db hnp1 hnp2 x a _ hp)
  have hleafBF : ∀ a : Path, leafB F (sb ++ a) = leafB fs (sb ++ a) := by
    intro a
    unfold leafB
    rw [hFsrc]
  have hU := unlink_fold_spec d sb db hforce hdry hnp1 hnp2 es F hnodup
    (fun x hx => by rw [hFsrc]; exact hread x hx)
    (fun x hx hxig => by
      constructor
      · intro hf
        rw [hFsrc] at hf
        exact (hM.2.2.1 x hx hxig).1 hf
      · intro t hf
        rw [hFsrc] at hf
        exact (hM.2.2.1 x hx hxig).2 t hf)
  refine ⟨hM.1, hU.1, ?_⟩
  rw [List.all_eq_true]
  intro x hx
  by_cases hxig : x ∈ d.ignore
  · simp [hxig]
  · cases hb : leafB fs (sb ++ x) with
    | false => simp [hb]
    | true =>
      have hzero := hU.2.1 x hx hxig (by rw [hleafBF]; exact hb)
      simp [hzero]

/-- Witness for `link_unlink_round_trip`: linking then unlinking `fsA`'s
source tree leaves no object at either mirrored leaf path. -/
theorem link_unlink_round_trip_witness :
    ((Dotr.mk [] false false).link noBad fsA ["s"] ["d"] entriesA).err = none ∧
    ((Dotr.mk [] false false).unlink noBad
      ((Dotr.mk [] false false).link noBad fsA ["s"] ["d"] entriesA).fs
      ["s"] ["d"] entriesA).err = none ∧
    entriesA.all (fun x => decide (x ∈ (Dotr.mk [] false false).ignore) ||
      !(leafB fsA (["s"] ++ x)) ||
      (((Dotr.mk [] false false).unlink noBad
        ((Dotr.mk [] false false).link noBad fsA ["s"] ["d"] entriesA).fs
        ["s"] ["d"] entriesA).fs (["d"] ++ x)).isNone) = true :=
  link_unlink_round_trip (Dotr.mk [] false false) fsA ["s"] ["d"] entriesA
    (by decide) (by decide) (by decide) (by decide) (by decide) (by decide)
    (by decide) (by decide) (by decide) (by decide) (by decide)

end DotrSpec
